import Mathlib

/-!
# Verification of `extract.py` (merged-PR fetcher)

A shallow embedding of the fetcher script `src/extract.py`.  Python strings
are modelled as `List Char` (`PyStr`), timestamps as `Nat` microseconds on the
proleptic Gregorian calendar (CPython's `datetime` ordinal arithmetic),
fallible code as `Except`/`Option`, and the effectful `main` as a pure
function from the environment token, parsed CLI arguments and the (finite)
sequence of HTTP responses the server delivers, to the requests issued,
filesystem effects performed and the final outcome.
-/

deriving instance DecidableEq for Except

namespace Extract

/-- Python `str` modelled as a list of characters. -/
abbrev PyStr := List Char

/-- Numeric value of a decimal digit character. -/
def digitVal (c : Char) : Nat := c.toNat - 48

/-- `strptime` field `%Y` (CPython regex `\d\d\d\d`): exactly four digits. -/
def parse4 : PyStr → Option (Nat × PyStr)
  | a :: b :: c :: d :: rest =>
    if a.isDigit && b.isDigit && c.isDigit && d.isDigit then
      some (1000 * digitVal a + 100 * digitVal b + 10 * digitVal c + digitVal d, rest)
    else none
  | _ => none

/-- A one-or-two digit `strptime` numeric field.  CPython's `_strptime`
regexes (`%m`, `%d`, `%H`, `%M`, `%S`) accept one or two digits subject to a
value constraint; in the formats used here every such field is followed by a
non-digit literal, under which the backtracking regex is equivalent to: if
two digits are present the two-digit alternative must be taken (checked by
`two1`), otherwise the single digit is checked by `one1`. -/
def parseField2 (two1 one1 : Nat → Bool) : PyStr → Option (Nat × PyStr)
  | a :: b :: rest =>
    if a.isDigit then
      if b.isDigit then
        let v := 10 * digitVal a + digitVal b
        if two1 v then some (v, rest) else none
      else
        let v := digitVal a
        if one1 v then some (v, b :: rest) else none
    else none
  | [a] =>
    if a.isDigit && one1 (digitVal a) then some (digitVal a, []) else none
  | [] => none

/-- A literal character of the format.  CPython compiles the `strptime`
pattern with `IGNORECASE`, so letters match case-insensitively. -/
def parseLit (c : Char) : PyStr → Option PyStr
  | x :: rest => if x.toLower = c.toLower then some rest else none
  | [] => none

/-- `%m` two-digit alternative `1[0-2]|0[1-9]`: values 1..12 (never `00`). -/
def monthOK2 (v : Nat) : Bool := 1 ≤ v && v ≤ 12
/-- `%m`/`%d` one-digit alternative `[1-9]`. -/
def dayOK1 (v : Nat) : Bool := 1 ≤ v && v ≤ 9
/-- `%d` two-digit alternative `3[01]|[12]\d|0[1-9]`: values 1..31. -/
def dayOK2 (v : Nat) : Bool := 1 ≤ v && v ≤ 31
/-- `%H` two-digit alternative `2[0-3]|[0-1]\d`: values 0..23. -/
def hourOK2 (v : Nat) : Bool := v ≤ 23
/-- Single `\d` alternative of `%H`, `%M`, `%S`. -/
def oneDigitOK (v : Nat) : Bool := v ≤ 9
/-- `%M` two-digit alternative `[0-5]\d`: values 0..59. -/
def minuteOK2 (v : Nat) : Bool := v ≤ 59
/-- `%S` two-digit alternative `6[0-1]|[0-5]\d`: values 0..61. -/
def secondOK2 (v : Nat) : Bool := v ≤ 61

/-- The six fields extracted by `strptime` before validation. -/
structure TimeTuple where
  year : Nat
  month : Nat
  day : Nat
  hour : Nat
  minute : Nat
  second : Nat
deriving DecidableEq

/-- Regex phase of `datetime.strptime(s, "%Y-%m-%dT%H:%M:%SZ")`: the whole
string must be consumed. -/
def parseIsoZ (s : PyStr) : Option TimeTuple := do
  let (y, s) ← parse4 s
  let s ← parseLit '-' s
  let (mo, s) ← parseField2 monthOK2 dayOK1 s
  let s ← parseLit '-' s
  let (d, s) ← parseField2 dayOK2 dayOK1 s
  let s ← parseLit 'T' s
  let (h, s) ← parseField2 hourOK2 oneDigitOK s
  let s ← parseLit ':' s
  let (mi, s) ← parseField2 minuteOK2 oneDigitOK s
  let s ← parseLit ':' s
  let (sec, s) ← parseField2 secondOK2 oneDigitOK s
  let s ← parseLit 'Z' s
  if s = [] then some ⟨y, mo, d, h, mi, sec⟩ else none

/-- Regex phase of `datetime.strptime(s, "%Y-%m-%d")`. -/
def parseYmd (s : PyStr) : Option TimeTuple := do
  let (y, s) ← parse4 s
  let s ← parseLit '-' s
  let (mo, s) ← parseField2 monthOK2 dayOK1 s
  let s ← parseLit '-' s
  let (d, s) ← parseField2 dayOK2 dayOK1 s
  if s = [] then some ⟨y, mo, d, 0, 0, 0⟩ else none

/-- Gregorian leap-year rule (CPython `datetime._is_leap`). -/
def isLeapYear (y : Nat) : Bool := y % 4 == 0 && (y % 100 != 0 || y % 400 == 0)

/-- Days in a month (CPython `datetime._days_in_month`). -/
def daysInMonth (y m : Nat) : Nat :=
  match m with
  | 1 => 31 | 2 => if isLeapYear y then 29 else 28
  | 3 => 31 | 4 => 30 | 5 => 31 | 6 => 30 | 7 => 31
  | 8 => 31 | 9 => 30 | 10 => 31 | 11 => 30 | 12 => 31
  | _ => 0

/-- Range checks performed by the `datetime` constructor, which
`datetime.strptime` invokes after the regex phase (a leap second `60`/`61`
accepted by the `%S` regex is rejected here). -/
def validDatetime (t : TimeTuple) : Bool :=
  1 ≤ t.year && t.year ≤ 9999 && 1 ≤ t.month && t.month ≤ 12 &&
  1 ≤ t.day && t.day ≤ daysInMonth t.year t.month &&
  t.hour ≤ 23 && t.minute ≤ 59 && t.second ≤ 59

/-- Cumulative days before month `m` in a non-leap year
(CPython `datetime._days_before_month` table). -/
def daysBeforeMonth (m : Nat) : Nat :=
  match m with
  | 1 => 0 | 2 => 31 | 3 => 59 | 4 => 90 | 5 => 120 | 6 => 151 | 7 => 181
  | 8 => 212 | 9 => 243 | 10 => 273 | 11 => 304 | 12 => 334
  | _ => 0

/-- Proleptic Gregorian ordinal of a date, day 1 = 0001-01-01
(CPython `datetime._ymd2ord`). -/
def ymd2ord (y m d : Nat) : Nat :=
  (y - 1) * 365 + (y - 1) / 4 - (y - 1) / 100 + (y - 1) / 400
    + daysBeforeMonth m + (if 2 < m && isLeapYear y then 1 else 0) + d

/-- Microseconds, the resolution of `timedelta` arithmetic in the script. -/
def usPerSecond : Nat := 1000000

/-- Microseconds in one day. -/
def usPerDay : Nat := 86400 * usPerSecond

/-- A `datetime` instant as microseconds since the day before 0001-01-01;
comparison and `timedelta` arithmetic on `datetime` agree with `Nat`
arithmetic on this encoding. -/
def dtToMicros (t : TimeTuple) : Nat :=
  ymd2ord t.year t.month t.day * usPerDay
    + (t.hour * 3600 + t.minute * 60 + t.second) * usPerSecond

/-- `iso_to_dt_utc` (extract.py:34-36): `datetime.strptime(iso,
"%Y-%m-%dT%H:%M:%SZ")`; `.error` models an uncaught `ValueError`. -/
def iso_to_dt_utc (s : PyStr) : Except Unit Nat :=
  match parseIsoZ s with
  | none => .error ()
  | some t => if validDatetime t then .ok (dtToMicros t) else .error ()

/-- `to_utc_date` (extract.py:23-31): `None`/empty gives an open bound; an
end bound is the parsed midnight plus `timedelta(days=1)` minus
`timedelta(microseconds=1)`; a malformed date raises (`.error`). -/
def to_utc_date (d : Option PyStr) (isEnd : Bool) : Except Unit (Option Nat) :=
  match d with
  | none => .ok none
  | some s =>
    if s = [] then .ok none
    else
      match parseYmd s with
      | none => .error ()
      | some t =>
        if validDatetime t then
          .ok (some (if isEnd then dtToMicros t + usPerDay - 1 else dtToMicros t))
        else .error ()

/-- Python truthiness test `not s` for an optional string: `None` and the
empty string are falsy. -/
def pyFalsyStr : Option PyStr → Bool
  | none => true
  | some s => s.isEmpty

/-- Whitespace stripped by Python `str.strip()` (ASCII part). -/
def pyIsSpace (c : Char) : Bool :=
  c = ' ' || c = '\t' || c = '\n' || c = '\r' || c = '\x0b' || c = '\x0c'

/-- Python `str.strip()`. -/
def pyStrip (s : PyStr) : PyStr :=
  ((s.dropWhile pyIsSpace).reverse.dropWhile pyIsSpace).reverse

/-- Does `hay` start with `needle`? -/
def startsWithSub : PyStr → PyStr → Bool
  | [], _ => true
  | _ :: _, [] => false
  | a :: ns, b :: hs => a = b && startsWithSub ns hs

/-- Python substring containment `needle in hay`. -/
def containsSub (needle : PyStr) : PyStr → Bool
  | [] => startsWithSub needle []
  | c :: rest => startsWithSub needle (c :: rest) || containsSub needle rest

/-- Index of the first occurrence of `c`, if any. -/
def findCharIdx (c : Char) : PyStr → Option Nat
  | [] => none
  | x :: rest =>
    if x = c then some 0 else (findCharIdx c rest).map (fun i => i + 1)

/-- Python `s.find(c)` for a single character: first index, `-1` if absent. -/
def pyFindChar (s : PyStr) (c : Char) : Int :=
  match findCharIdx c s with
  | some i => (i : Int)
  | none => -1

/-- Python `s.rfind(c)` for a single character: last index, `-1` if absent. -/
def pyRFindChar (s : PyStr) (c : Char) : Int :=
  match findCharIdx c s.reverse with
  | some j => (s.length : Int) - 1 - j
  | none => -1

/-- Normalisation of one Python slice index: negative indices count from the
end, and the result is clamped to `[0, len]`. -/
def normSliceIdx (s : PyStr) (i : Int) : Int :=
  if i < 0 then max ((s.length : Int) + i) 0 else min i (s.length : Int)

/-- Python slice `s[a:b]`. -/
def pySlice (s : PyStr) (a b : Int) : PyStr :=
  if normSliceIdx s a < normSliceIdx s b then
    (s.drop (normSliceIdx s a).toNat).take
      (normSliceIdx s b - normSliceIdx s a).toNat
  else []

/-- The literal `rel="next"` searched for in each Link-header part. -/
def relNext : PyStr := "rel=\"next\"".toList

/-- The URL extraction applied to a matching part (extract.py:66-68):
`p[p.find("<") + 1 : p.find(">")]`. -/
def extractNext (p : PyStr) : PyStr :=
  pySlice p (pyFindChar p '<' + 1) (pyFindChar p '>')

/-- The `for p in parts` loop of `next_link` (extract.py:64-69). -/
def findNextPart : List PyStr → Option PyStr
  | [] => none
  | p :: rest =>
    if containsSub relNext p then some (extractNext p) else findNextPart rest

/-- `next_link` (extract.py:58-69): `resp.headers.get("Link", "")`, split on
commas, strip each part, return the sliced URL of the first part containing
`rel="next"`. -/
def next_link (linkHeader : Option PyStr) : Option PyStr :=
  let link := linkHeader.getD []
  if link = [] then none
  else findNextPart ((link.splitOn ',').map pyStrip)

/-- Modelled from the spec: "the substring enclosed between `<` and `>`" —
the characters strictly after the first `<` and before the first following
`>`, undefined when either bracket is missing. -/
def claimEnclosed (p : PyStr) : Option PyStr :=
  match findCharIdx '<' p with
  | none => none
  | some i =>
    match findCharIdx '>' (p.drop (i + 1)) with
    | none => none
    | some j => some ((p.drop (i + 1)).take j)

/-- Modelled from the spec: claim C6's description of the pagination-link
extractor — split on commas, return the substring enclosed between `<` and
`>` of the first comma-separated segment containing `rel="next"`, `None`
exactly when the header is absent/empty or no segment matches. -/
def claimNextLink (linkHeader : Option PyStr) : Option PyStr :=
  match linkHeader with
  | none => none
  | some link =>
    if link = [] then none
    else
      match ((link.splitOn ',').map pyStrip).find? (containsSub relNext) with
      | none => none
      | some p => claimEnclosed p

/-- A pull-request record of the API page: its `merged_at` value (`none`
models a JSON `null` or a missing key under `pr.get("merged_at")`) and the
remaining fields, opaque and carried along unchanged. -/
structure PR where
  merged_at : Option PyStr
  rest : PyStr
deriving DecidableEq

/-- The query parameters dict built in `main` (extract.py:86-92). -/
structure Params where
  state : PyStr
  per_page : Nat
  page : Nat
  sort : PyStr
  direction : PyStr
deriving DecidableEq

/-- The initial parameters of the first request. -/
def initParams : Params :=
  { state := "closed".toList, per_page := 100, page := 1,
    sort := "updated".toList, direction := "desc".toList }

/-- An HTTP response as the script observes it: status code, `resp.text`,
`resp.json()` (`none` models a JSON `null`, so that `resp.json() or []`
is `body.getD []`), and the `Link` header if present. -/
structure Response where
  status : Nat
  text : PyStr
  body : Option (List PR)
  linkHeader : Option PyStr
deriving DecidableEq

/-- One `session.get` call as issued by the loop: the URL and the `params`
argument (`none` once a link URL is followed). -/
structure Request where
  url : PyStr
  params : Option Params
deriving DecidableEq

/-- Decimal rendering of a status code inside an f-string. -/
def natStr (n : Nat) : PyStr := (Nat.repr n).toList

/-- The fatal-HTTP diagnostic (extract.py:104): a fixed prefix, the
decimal status code, a colon-space, and the body truncated to 300 chars. -/
def apiErrorMsg (resp : Response) : PyStr :=
  "❌ GitHub API error ".toList ++ natStr resp.status ++ ": ".toList
    ++ resp.text.take 300

/-- The missing-token diagnostic (extract.py:77). -/
def tokenErrorMsg : PyStr :=
  "❌ GITHUB_TOKEN environment variable is not set.".toList

/-- The pulls list URL built from owner and repo (extract.py:85). -/
def base_url (owner repo : PyStr) : PyStr :=
  "https://api.github.com/repos/".toList ++ owner ++ "/".toList ++ repo
    ++ "/pulls".toList

/-- The truthy guard `start_dt and mdt < start_dt` of extract.py:116. -/
def beforeStart (startDt : Option Nat) (mdt : Nat) : Bool :=
  match startDt with
  | none => false
  | some sd => mdt < sd

/-- The truthy guard `end_dt and mdt > end_dt` of extract.py:118. -/
def afterEnd (endDt : Option Nat) (mdt : Nat) : Bool :=
  match endDt with
  | none => false
  | some ed => ed < mdt

/-- The `for pr in prs` filter of one page (extract.py:111-120): skip a PR
whose `merged_at` is falsy (null or empty), parse the rest (`.error` models
the uncaught `ValueError` of `iso_to_dt_utc`), and keep those inside the
bounds, in order. -/
def filterMerged (startDt endDt : Option Nat) : List PR → Except Unit (List PR)
  | [] => .ok []
  | pr :: rest =>
    match pr.merged_at with
    | none => filterMerged startDt endDt rest
    | some s =>
      if s = [] then filterMerged startDt endDt rest
      else
        match iso_to_dt_utc s with
        | .error e => .error e
        | .ok mdt =>
          if beforeStart startDt mdt then filterMerged startDt endDt rest
          else if afterEnd endDt mdt then filterMerged startDt endDt rest
          else
            match filterMerged startDt endDt rest with
            | .error e => .error e
            | .ok tail => .ok (pr :: tail)

/-- How a run of the `while True` loop ends. -/
inductive LoopExit where
  /-- `sys.exit(code)` after printing `msg` (extract.py:104-105). -/
  | fatal (code : Nat) (msg : PyStr)
  /-- an uncaught exception escaping the loop body. -/
  | uncaught
  /-- normal `break`: the accumulated records and `pages_scanned`. -/
  | done (kept : List PR) (pagesScanned : Nat)
  /-- model artifact: the loop asked for a page beyond the finite response
  sequence provided. -/
  | starved
deriving DecidableEq

/-- The `while True` pagination loop (extract.py:100-126), driven by the
finite list of responses the server delivers to successive `session.get`
calls.  Returns the requests issued (in order) and how the loop ended. -/
def fetchPages (startDt endDt : Option Nat) :
    PyStr → Option Params → List Response → List PR → Nat →
      List Request × LoopExit
  | url, params, [], _, _ => ([⟨url, params⟩], .starved)
  | url, params, resp :: rest, acc, pages =>
    if resp.status ≠ 200 then
      ([⟨url, params⟩], .fatal 1 (apiErrorMsg resp))
    else
      match filterMerged startDt endDt (resp.body.getD []) with
      | .error _ => ([⟨url, params⟩], .uncaught)
      | .ok page =>
        match next_link resp.linkHeader with
        | none => ([⟨url, params⟩], .done (acc ++ page) (pages + 1))
        | some nxt =>
          if nxt = [] ∨ (resp.body.getD []) = [] then
            ([⟨url, params⟩], .done (acc ++ page) (pages + 1))
          else
            (⟨url, params⟩ ::
                (fetchPages startDt endDt nxt none rest (acc ++ page) (pages + 1)).1,
              (fetchPages startDt endDt nxt none rest (acc ++ page) (pages + 1)).2)

/-- `if not nxt or not prs: break` — the condition under which the loop stops
following links after a successfully filtered page. -/
def stopsHere (resp : Response) : Bool :=
  pyFalsyStr (next_link resp.linkHeader) || (resp.body.getD []).isEmpty

/-- Parsed command-line arguments (extract.py:10-20). -/
structure Args where
  owner : PyStr
  repo : PyStr
  start_date : Option PyStr
  end_date : Option PyStr
  out : PyStr
deriving DecidableEq

/-- The `argparse` defaults. -/
def defaultArgs : Args :=
  { owner := "Scytale-exercise".toList, repo := "scytale-repo3".toList,
    start_date := none, end_date := none,
    out := "outputs/raw/raw_pr_data.json".toList }

/-- `os.path.dirname` (posix): the head of the path split at the last `/`,
with trailing slashes stripped unless it is all slashes. -/
def pyDirname (p : PyStr) : PyStr :=
  let i := pyRFindChar p '/' + 1
  let head := p.take i.toNat
  if head ≠ [] && head.any (fun c => c ≠ '/') then
    (head.reverse.dropWhile (fun c => c = '/')).reverse
  else head

/-- A filesystem effect performed by `main`. -/
inductive Effect where
  /-- `os.makedirs(dir, exist_ok=True)` (extract.py:130). -/
  | makedirs (dir : PyStr)
  /-- `json.dump(merged_kept, f, indent=2)` into `path` (extract.py:132-133). -/
  | writeJson (path : PyStr) (content : List PR)
deriving DecidableEq

/-- How the process ends. -/
inductive Outcome where
  /-- `sys.exit(code)` after printing `msg` to stderr. -/
  | exited (code : Nat) (msg : PyStr)
  /-- an uncaught exception (traceback), e.g. a `strptime` `ValueError`. -/
  | uncaughtError
  /-- normal completion: the records written and the pages scanned. -/
  | completed (written : List PR) (pagesScanned : Nat)
  /-- model artifact: the finite response sequence ran out. -/
  | outOfResponses
deriving DecidableEq

/-- Everything observable about one run of `main`. -/
structure RunResult where
  requests : List Request
  effects : List Effect
  outcome : Outcome
deriving DecidableEq

/-- `main` (extract.py:72-137) as a pure function of the `GITHUB_TOKEN`
environment value, the parsed arguments and the response sequence.  The
token check precedes everything; malformed `--start-date`/`--end-date`
raise (uncaught `ValueError` in `to_utc_date`); the loop then runs; on
normal `break` the output directory is created (`os.makedirs` raises on an
empty dirname) and the array is written in a single `json.dump`. -/
def main (token : Option PyStr) (args : Args) (responses : List Response) :
    RunResult :=
  if pyFalsyStr token then ⟨[], [], .exited 2 tokenErrorMsg⟩
  else
    match to_utc_date args.start_date false with
    | .error _ => ⟨[], [], .uncaughtError⟩
    | .ok start_dt =>
      match to_utc_date args.end_date true with
      | .error _ => ⟨[], [], .uncaughtError⟩
      | .ok end_dt =>
        match fetchPages start_dt end_dt (base_url args.owner args.repo)
            (some initParams) responses [] 0 with
        | (reqs, .fatal c m) => ⟨reqs, [], .exited c m⟩
        | (reqs, .uncaught) => ⟨reqs, [], .uncaughtError⟩
        | (reqs, .starved) => ⟨reqs, [], .outOfResponses⟩
        | (reqs, .done kept pages) =>
          if pyDirname args.out = [] then ⟨reqs, [], .uncaughtError⟩
          else
            ⟨reqs, [.makedirs (pyDirname args.out), .writeJson args.out kept],
              .completed kept pages⟩

/-- The `urllib3.util.retry.Retry` configuration built by `build_session`
(extract.py:41-47). -/
structure RetryConfig where
  total : Nat
  backoff_factor : ℚ
  status_forcelist : List Nat
  allowed_methods : List PyStr
  raise_on_status : Bool
deriving DecidableEq

/-- The retry policy mounted on the session (extract.py:41-47, 54). -/
def build_session_retries : RetryConfig :=
  { total := 5, backoff_factor := 1/2,
    status_forcelist := [429, 500, 502, 503, 504],
    allowed_methods := ["GET".toList],
    raise_on_status := false }

/-- The method string of every request the script makes. -/
def methodGET : PyStr := "GET".toList

/-- urllib3 `Retry.is_retry` for a received status: the status is in the
forcelist and the method is allowed. -/
def isRetryStatus (cfg : RetryConfig) (method : PyStr) (status : Nat) : Bool :=
  cfg.allowed_methods.contains method && cfg.status_forcelist.contains status

/-- Result of one logical `session.get`: the final response delivered to the
caller together with the number of raw attempts, a `MaxRetryError` (only
when `raise_on_status` is set), or a model artifact when the finite server
sequence ran out. -/
inductive GetResult where
  | response (r : Response) (attempts : Nat)
  | maxRetryError (attempts : Nat)
  | serverExhausted
deriving DecidableEq

/-- urllib3's status-retry loop for one logical GET (`HTTPConnectionPool.
urlopen` with `Retry`): each retryable response decrements `total`; when
`total` would drop below zero the policy is exhausted and — because
`raise_on_status=False` — the last response is returned to the caller. -/
def sessionGet (cfg : RetryConfig) (method : PyStr) :
    Int → List Response → GetResult
  | _, [] => .serverExhausted
  | total, r :: rest =>
    if isRetryStatus cfg method r.status then
      if total - 1 < 0 then
        if cfg.raise_on_status then .maxRetryError 1 else .response r 1
      else
        match sessionGet cfg method (total - 1) rest with
        | .response fin k => .response fin (k + 1)
        | .maxRetryError k => .maxRetryError (k + 1)
        | .serverExhausted => .serverExhausted
    else .response r 1

/-- What holds of every record the page filter keeps: a non-null, non-empty
`merged_at` that parses to an instant inside the (open-ended) bounds. -/
def keptPR (startDt endDt : Option Nat) (pr : PR) : Prop :=
  ∃ str mdt, pr.merged_at = some str ∧ str ≠ [] ∧
    iso_to_dt_utc str = .ok mdt ∧
    (∀ sd, startDt = some sd → sd ≤ mdt) ∧
    (∀ ed, endDt = some ed → mdt ≤ ed)

/-- Modelled from the spec (for the order-preservation comparison of C9):
the in-order concatenation, over a list of pages, of each page's records
surviving the merged/date filter. -/
def specOutputConcat (startDt endDt : Option Nat) :
    List Response → Except Unit (List PR)
  | [] => .ok []
  | r :: rest =>
    match filterMerged startDt endDt (r.body.getD []) with
    | .error e => .error e
    | .ok page =>
      match specOutputConcat startDt endDt rest with
      | .error e => .error e
      | .ok tail => .ok (page ++ tail)

/-! ### Concrete fixtures used by witnesses and counterexamples -/

/-- A non-empty token value. -/
def tokenVal : PyStr := "token-abc".toList

/-- A PR merged 2025-01-31, outside a February range. -/
def prJan : PR := ⟨some "2025-01-31T12:00:00Z".toList, "pr-jan".toList⟩

/-- A PR merged 2025-02-15, inside a February range. -/
def prFeb : PR := ⟨some "2025-02-15T10:00:00Z".toList, "pr-feb".toList⟩

/-- An unmerged PR (`merged_at` null). -/
def prNoMerge : PR := ⟨none, "pr-open".toList⟩

/-- A merged PR whose timestamp carries fractional seconds. -/
def prBadTs : PR := ⟨some "2025-11-06T09:05:11.123Z".toList, "pr-frac".toList⟩

/-- `defaultArgs` restricted to February 2025. -/
def argsFeb : Args :=
  { defaultArgs with start_date := some "2025-02-01".toList,
                     end_date := some "2025-02-28".toList }

/-- A single 200 page holding `prJan`, `prFeb` and `prNoMerge`, no next link. -/
def respFeb : Response := ⟨200, [], some [prJan, prFeb, prNoMerge], none⟩

/-- A Link header pointing at page 2. -/
def linkHdr2 : PyStr :=
  "<https://api.github.com/repos/o/r/pulls?page=2>; rel=\"next\"".toList

/-- The URL inside `linkHdr2`. -/
def urlPage2 : PyStr := "https://api.github.com/repos/o/r/pulls?page=2".toList

/-- A 200 page whose only record is filtered out but which carries a next
link and a non-empty record list, so the loop keeps following. -/
def respPage1 : Response := ⟨200, [], some [prNoMerge], some linkHdr2⟩

/-- A 200 page with no records and no next link: the loop stops. -/
def respLast : Response := ⟨200, [], some [], none⟩

/-- A transient failure from the endpoint. -/
def resp503 : Response := ⟨503, "Service Unavailable".toList, none, none⟩

/-- A 2xx-but-not-200 response. -/
def resp201 : Response := ⟨201, "Created".toList, some [], none⟩

/-- A 200 page containing the fractional-seconds record. -/
def respBadTs : Response := ⟨200, [], some [prBadTs], none⟩

/-! ### Step equations for the pagination loop -/

theorem fetchPages_nil (s e : Option Nat) (url : PyStr) (params : Option Params)
    (acc : List PR) (pages : Nat) :
    fetchPages s e url params [] acc pages = ([⟨url, params⟩], .starved) := rfl

theorem fetchPages_not200 (s e : Option Nat) (url : PyStr)
    (params : Option Params) (resp : Response) (rest : List Response)
    (acc : List PR) (pages : Nat) (h : resp.status ≠ 200) :
    fetchPages s e url params (resp :: rest) acc pages
      = ([⟨url, params⟩], .fatal 1 (apiErrorMsg resp)) := by
  simp only [fetchPages, if_pos h]

theorem fetchPages_uncaught (s e : Option Nat) (url : PyStr)
    (params : Option Params) (resp : Response) (rest : List Response)
    (acc : List PR) (pages : Nat) (h200 : resp.status = 200) (err : Unit)
    (hf : filterMerged s e (resp.body.getD []) = .error err) :
    fetchPages s e url params (resp :: rest) acc pages
      = ([⟨url, params⟩], .uncaught) := by
  simp only [fetchPages, if_neg (not_not_intro h200), hf]

theorem fetchPages_done_nolink (s e : Option Nat) (url : PyStr)
    (params : Option Params) (resp : Response) (rest : List Response)
    (acc : List PR) (pages : Nat) (h200 : resp.status = 200) (page : List PR)
    (hf : filterMerged s e (resp.body.getD []) = .ok page)
    (hnl : next_link resp.linkHeader = none) :
    fetchPages s e url params (resp :: rest) acc pages
      = ([⟨url, params⟩], .done (acc ++ page) (pages + 1)) := by
  simp only [fetchPages, if_neg (not_not_intro h200), hf, hnl]

theorem fetchPages_done_stop (s e : Option Nat) (url : PyStr)
    (params : Option Params) (resp : Response) (rest : List Response)
    (acc : List PR) (pages : Nat) (h200 : resp.status = 200) (page : List PR)
    (nxt : PyStr) (hf : filterMerged s e (resp.body.getD []) = .ok page)
    (hnl : next_link resp.linkHeader = some nxt)
    (hstop : nxt = [] ∨ (resp.body.getD []) = []) :
    fetchPages s e url params (resp :: rest) acc pages
      = ([⟨url, params⟩], .done (acc ++ page) (pages + 1)) := by
  simp only [fetchPages, if_neg (not_not_intro h200), hf, hnl, if_pos hstop]

theorem fetchPages_continue (s e : Option Nat) (url : PyStr)
    (params : Option Params) (resp : Response) (rest : List Response)
    (acc : List PR) (pages : Nat) (h200 : resp.status = 200) (page : List PR)
    (nxt : PyStr) (hf : filterMerged s e (resp.body.getD []) = .ok page)
    (hnl : next_link resp.linkHeader = some nxt)
    (hgo : ¬(nxt = [] ∨ (resp.body.getD []) = [])) :
    fetchPages s e url params (resp :: rest) acc pages
      = (⟨url, params⟩ ::
          (fetchPages s e nxt none rest (acc ++ page) (pages + 1)).1,
         (fetchPages s e nxt none rest (acc ++ page) (pages + 1)).2) := by
  simp only [fetchPages, if_neg (not_not_intro h200), hf, hnl, if_neg hgo]

/-! ### Properties of the per-page filter -/

theorem filterMerged_mem (s e : Option Nat) :
    ∀ l kept, filterMerged s e l = .ok kept → ∀ pr ∈ kept, keptPR s e pr := by
  intro l
  induction l with
  | nil =>
    intro kept h pr hpr
    simp only [filterMerged] at h
    injection h with h2
    subst h2
    simp at hpr
  | cons pr0 rest ih =>
    intro kept h pr hpr
    simp only [filterMerged] at h
    cases hma : pr0.merged_at with
    | none =>
      simp only [hma] at h
      exact ih kept h pr hpr
    | some s0 =>
      simp only [hma] at h
      by_cases hs0 : s0 = []
      · rw [if_pos hs0] at h
        exact ih kept h pr hpr
      · rw [if_neg hs0] at h
        cases hparse : iso_to_dt_utc s0 with
        | error err => simp only [hparse] at h; exact Except.noConfusion h
        | ok mdt =>
          simp only [hparse] at h
          by_cases hbs : beforeStart s mdt = true
          · rw [if_pos hbs] at h
            exact ih kept h pr hpr
          · rw [if_neg hbs] at h
            by_cases hae : afterEnd e mdt = true
            · rw [if_pos hae] at h
              exact ih kept h pr hpr
            · rw [if_neg hae] at h
              cases hrec : filterMerged s e rest with
              | error err => simp only [hrec] at h; exact Except.noConfusion h
              | ok tail =>
                simp only [hrec] at h
                injection h with h2
                subst h2
                rcases List.mem_cons.mp hpr with rfl | hmem
                · refine ⟨s0, mdt, hma, hs0, hparse, ?_, ?_⟩
                  · intro sd hsd
                    subst hsd
                    simp [beforeStart] at hbs
                    omega
                  · intro ed hed
                    subst hed
                    simp [afterEnd] at hae
                    omega
                · exact ih tail hrec pr hmem

theorem filterMerged_sublist (s e : Option Nat) :
    ∀ l kept, filterMerged s e l = .ok kept → kept.Sublist l := by
  intro l
  induction l with
  | nil =>
    intro kept h
    simp only [filterMerged] at h
    injection h with h2
    subst h2
    exact List.nil_sublist []
  | cons pr0 rest ih =>
    intro kept h
    simp only [filterMerged] at h
    cases hma : pr0.merged_at with
    | none =>
      simp only [hma] at h
      exact (ih kept h).cons pr0
    | some s0 =>
      simp only [hma] at h
      by_cases hs0 : s0 = []
      · rw [if_pos hs0] at h
        exact (ih kept h).cons pr0
      · rw [if_neg hs0] at h
        cases hparse : iso_to_dt_utc s0 with
        | error err => simp only [hparse] at h; exact Except.noConfusion h
        | ok mdt =>
          simp only [hparse] at h
          by_cases hbs : beforeStart s mdt = true
          · rw [if_pos hbs] at h
            exact (ih kept h).cons pr0
          · rw [if_neg hbs] at h
            by_cases hae : afterEnd e mdt = true
            · rw [if_pos hae] at h
              exact (ih kept h).cons pr0
            · rw [if_neg hae] at h
              cases hrec : filterMerged s e rest with
              | error err => simp only [hrec] at h; exact Except.noConfusion h
              | ok tail =>
                simp only [hrec] at h
                injection h with h2
                subst h2
                exact (ih tail hrec).cons₂ pr0

/-! ### Trace lemmas for the pagination loop -/

theorem fetchPages_first (s e : Option Nat) (url : PyStr)
    (params : Option Params) (rs : List Response) (acc : List PR)
    (pages : Nat) :
    (fetchPages s e url params rs acc pages).1
      = ⟨url, params⟩ :: (fetchPages s e url params rs acc pages).1.tail := by
  cases rs with
  | nil => rfl
  | cons resp rest =>
    simp only [fetchPages]
    repeat' split
    all_goals rfl

theorem fetchPages_len (s e : Option Nat) :
    ∀ (rs : List Response) url params acc pages,
      (fetchPages s e url params rs acc pages).1.length ≤ rs.length + 1 := by
  intro rs
  induction rs with
  | nil =>
    intro url params acc pages
    simp [fetchPages_nil]
  | cons resp rest ih =>
    intro url params acc pages
    by_cases h200 : resp.status = 200
    · cases hf : filterMerged s e (resp.body.getD []) with
      | error err =>
        rw [fetchPages_uncaught s e url params resp rest acc pages h200 err hf]
        simp
      | ok page =>
        cases hnl : next_link resp.linkHeader with
        | none =>
          rw [fetchPages_done_nolink s e url params resp rest acc pages h200
            page hf hnl]
          simp
        | some nxt =>
          by_cases hstop : nxt = [] ∨ (resp.body.getD []) = []
          · rw [fetchPages_done_stop s e url params resp rest acc pages h200
              page nxt hf hnl hstop]
            simp
          · rw [fetchPages_continue s e url params resp rest acc pages h200
              page nxt hf hnl hstop]
            have := ih nxt none (acc ++ page) (pages + 1)
            simp only [List.length_cons]
            omega
    · rw [fetchPages_not200 s e url params resp rest acc pages h200]
      simp

theorem fetchPages_fatal_inv (s e : Option Nat) :
    ∀ (rs : List Response) url params acc pages c m,
      (fetchPages s e url params rs acc pages).2 = .fatal c m →
      c = 1 ∧ ∃ r ∈ rs, r.status ≠ 200 ∧ m = apiErrorMsg r := by
  intro rs
  induction rs with
  | nil =>
    intro url params acc pages c m h
    simp [fetchPages_nil] at h
  | cons resp rest ih =>
    intro url params acc pages c m h
    by_cases h200 : resp.status = 200
    · cases hf : filterMerged s e (resp.body.getD []) with
      | error err =>
        rw [fetchPages_uncaught s e url params resp rest acc pages h200 err hf]
          at h
        simp at h
      | ok page =>
        cases hnl : next_link resp.linkHeader with
        | none =>
          rw [fetchPages_done_nolink s e url params resp rest acc pages h200
            page hf hnl] at h
          simp at h
        | some nxt =>
          by_cases hstop : nxt = [] ∨ (resp.body.getD []) = []
          · rw [fetchPages_done_stop s e url params resp rest acc pages h200
              page nxt hf hnl hstop] at h
            simp at h
          · rw [fetchPages_continue s e url params resp rest acc pages h200
              page nxt hf hnl hstop] at h
            obtain ⟨hc, r, hr, hr200, hm⟩ :=
              ih nxt none (acc ++ page) (pages + 1) c m h
            exact ⟨hc, r, List.mem_cons_of_mem resp hr, hr200, hm⟩
    · rw [fetchPages_not200 s e url params resp rest acc pages h200] at h
      injection h with h1 h2
      exact ⟨h1.symm, resp, List.mem_cons_self resp rest, h200, h2.symm⟩

theorem fetchPages_params_none (s e : Option Nat) :
    ∀ (rs : List Response) url params acc pages i req,
      (fetchPages s e url params rs acc pages).1.get? (i + 1) = some req →
      req.params = none ∧ ∃ resp, rs.get? i = some resp ∧
        next_link resp.linkHeader = some req.url := by
  intro rs
  induction rs with
  | nil =>
    intro url params acc pages i req h
    simp [fetchPages_nil] at h
  | cons resp rest ih =>
    intro url params acc pages i req h
    by_cases h200 : resp.status = 200
    · cases hf : filterMerged s e (resp.body.getD []) with
      | error err =>
        rw [fetchPages_uncaught s e url params resp rest acc pages h200 err hf]
          at h
        simp at h
      | ok page =>
        cases hnl : next_link resp.linkHeader with
        | none =>
          rw [fetchPages_done_nolink s e url params resp rest acc pages h200
            page hf hnl] at h
          simp at h
        | some nxt =>
          by_cases hstop : nxt = [] ∨ (resp.body.getD []) = []
          · rw [fetchPages_done_stop s e url params resp rest acc pages h200
              page nxt hf hnl hstop] at h
            simp at h
          · rw [fetchPages_continue s e url params resp rest acc pages h200
              page nxt hf hnl hstop] at h
            have h' : (fetchPages s e nxt none rest (acc ++ page)
                (pages + 1)).1.get? i = some req := h
            cases i with
            | zero =>
              rw [fetchPages_first s e nxt none rest (acc ++ page) (pages + 1)]
                at h'
              have hreq : (⟨nxt, none⟩ : Request) = req := by
                simpa using h'
              subst hreq
              exact ⟨rfl, resp, rfl, hnl⟩
            | succ k =>
              obtain ⟨hp, resp2, hr2, hn2⟩ :=
                ih nxt none (acc ++ page) (pages + 1) k req h'
              exact ⟨hp, resp2, hr2, hn2⟩
    · rw [fetchPages_not200 s e url params resp rest acc pages h200] at h
      simp at h

theorem fetchPages_done_inv (s e : Option Nat) :
    ∀ (rs : List Response) url params acc pages kept n,
      (fetchPages s e url params rs acc pages).2 = .done kept n →
      ∃ used rest2, rs = used ++ rest2 ∧
        ∃ l, specOutputConcat s e used = .ok l ∧ kept = acc ++ l := by
  intro rs
  induction rs with
  | nil =>
    intro url params acc pages kept n h
    simp [fetchPages_nil] at h
  | cons resp rest ih =>
    intro url params acc pages kept n h
    by_cases h200 : resp.status = 200
    · cases hf : filterMerged s e (resp.body.getD []) with
      | error err =>
        rw [fetchPages_uncaught s e url params resp rest acc pages h200 err hf]
          at h
        simp at h
      | ok page =>
        cases hnl : next_link resp.linkHeader with
        | none =>
          rw [fetchPages_done_nolink s e url params resp rest acc pages h200
            page hf hnl] at h
          injection h with hk hn
          refine ⟨[resp], rest, rfl, page, ?_, hk.symm⟩
          simp [specOutputConcat, hf]
        | some nxt =>
          by_cases hstop : nxt = [] ∨ (resp.body.getD []) = []
          · rw [fetchPages_done_stop s e url params resp rest acc pages h200
              page nxt hf hnl hstop] at h
            injection h with hk hn
            refine ⟨[resp], rest, rfl, page, ?_, hk.symm⟩
            simp [specOutputConcat, hf]
          · rw [fetchPages_continue s e url params resp rest acc pages h200
              page nxt hf hnl hstop] at h
            obtain ⟨used, rest2, hsplit, l, hspec, hkept⟩ :=
              ih nxt none (acc ++ page) (pages + 1) kept n h
            refine ⟨resp :: used, rest2, by simp [hsplit], page ++ l, ?_, ?_⟩
            · simp [specOutputConcat, hf, hspec]
            · simp [hkept, List.append_assoc]
    · rw [fetchPages_not200 s e url params resp rest acc pages h200] at h
      simp at h

theorem specOutputConcat_sublist (s e : Option Nat) :
    ∀ used l, specOutputConcat s e used = .ok l →
      l.Sublist (used.flatMap fun r => (r.body.getD [])) := by
  intro used
  induction used with
  | nil =>
    intro l h
    simp only [specOutputConcat] at h
    injection h with h2
    subst h2
    simp
  | cons r rest ih =>
    intro l h
    simp only [specOutputConcat] at h
    cases hf : filterMerged s e (r.body.getD []) with
    | error err => simp only [hf] at h; exact Except.noConfusion h
    | ok page =>
      simp only [hf] at h
      cases hrec : specOutputConcat s e rest with
      | error err => simp only [hrec] at h; exact Except.noConfusion h
      | ok tail =>
        simp only [hrec] at h
        injection h with h2
        subst h2
        rw [List.flatMap_cons]
        exact (filterMerged_sublist s e _ page hf).append (ih tail hrec)

/-! ### Lemmas about character search, slicing and the link parser -/

theorem findCharIdx_lt_length (c : Char) :
    ∀ (l : PyStr) i, findCharIdx c l = some i → i < l.length := by
  intro l
  induction l with
  | nil => intro i h; simp [findCharIdx] at h
  | cons a t ih =>
    intro i h
    simp only [findCharIdx] at h
    by_cases ha : a = c
    · rw [if_pos ha] at h
      injection h with h2
      simp [← h2]
    · rw [if_neg ha] at h
      cases hft : findCharIdx c t with
      | none => rw [hft] at h; simp at h
      | some j =>
        rw [hft] at h
        simp only [Option.map_some'] at h
        injection h with h2
        have := ih j hft
        simp only [List.length_cons]
        omega

theorem findCharIdx_drop (c : Char) :
    ∀ (k : Nat) (l : PyStr) j, findCharIdx c l = some j → k ≤ j →
      findCharIdx c (l.drop k) = some (j - k) := by
  intro k
  induction k with
  | zero => intro l j h _; simpa using h
  | succ k ih =>
    intro l j h hk
    cases l with
    | nil => simp [findCharIdx] at h
    | cons a t =>
      simp only [findCharIdx] at h
      by_cases ha : a = c
      · rw [if_pos ha] at h
        injection h with h2
        omega
      · rw [if_neg ha] at h
        cases hft : findCharIdx c t with
        | none => rw [hft] at h; simp at h
        | some j2 =>
          rw [hft] at h
          simp only [Option.map_some'] at h
          injection h with h2
          have hdrop : (a :: t).drop (k + 1) = t.drop k := rfl
          rw [hdrop, ih t j2 hft (by omega)]
          congr 1
          omega

theorem pySlice_of_indices (p : PyStr) (i j : Nat) (hi : i + 1 ≤ p.length)
    (hj : j ≤ p.length) :
    pySlice p ((i : Int) + 1) (j : Int)
      = (p.drop (i + 1)).take (j - (i + 1)) := by
  have hna : normSliceIdx p ((i : Int) + 1) = (i : Int) + 1 := by
    simp only [normSliceIdx]
    rw [if_neg (by omega)]
    omega
  have hnb : normSliceIdx p ((j : Int)) = (j : Int) := by
    simp only [normSliceIdx]
    rw [if_neg (by omega)]
    omega
  simp only [pySlice, hna, hnb]
  by_cases hlt : ((i : Int) + 1) < (j : Int)
  · rw [if_pos hlt]
    have h1 : ((i : Int) + 1).toNat = i + 1 := by omega
    have h2 : ((j : Int) - ((i : Int) + 1)).toNat = j - (i + 1) := by omega
    rw [h1, h2]
  · rw [if_neg hlt]
    have h0 : j - (i + 1) = 0 := by omega
    rw [h0]
    simp

theorem findNextPart_eq_none :
    ∀ ps, findNextPart ps = none ↔
      ∀ p ∈ ps, containsSub relNext p = false := by
  intro ps
  induction ps with
  | nil => simp [findNextPart]
  | cons p rest ih =>
    simp only [findNextPart]
    by_cases hc : containsSub relNext p = true
    · rw [if_pos hc]
      constructor
      · intro h; exact Option.noConfusion h
      · intro h
        have := h p (List.mem_cons_self p rest)
        rw [hc] at this
        exact Bool.noConfusion this
    · have hc' : containsSub relNext p = false := by
        cases hcb : containsSub relNext p
        · rfl
        · exact absurd hcb hc
      rw [if_neg hc, ih]
      constructor
      · intro h q hq
        rcases List.mem_cons.mp hq with rfl | hq2
        · exact hc'
        · exact h q hq2
      · intro h q hq
        exact h q (List.mem_cons_of_mem p hq)

theorem findNextPart_eq_some :
    ∀ ps p, ps.find? (containsSub relNext) = some p →
      findNextPart ps = some (extractNext p) := by
  intro ps
  induction ps with
  | nil => intro p h; simp [List.find?] at h
  | cons q rest ih =>
    intro p h
    simp only [findNextPart]
    by_cases hc : containsSub relNext q = true
    · rw [List.find?_cons_of_pos _ hc] at h
      injection h with h2
      subst h2
      rw [if_pos hc]
    · rw [List.find?_cons_of_neg _ hc] at h
      rw [if_neg hc]
      exact ih p h

/-! ### Inversion lemmas for `main` -/

theorem main_completed_inv (token : Option PyStr) (args : Args)
    (rs : List Response) (kept : List PR) (n : Nat)
    (h : (main token args rs).outcome = .completed kept n) :
    pyFalsyStr token = false ∧ ∃ sdt edt,
      to_utc_date args.start_date false = .ok sdt ∧
      to_utc_date args.end_date true = .ok edt ∧
      (fetchPages sdt edt (base_url args.owner args.repo) (some initParams)
          rs [] 0).2 = .done kept n := by
  by_cases ht : pyFalsyStr token = true
  · simp [main, ht] at h
  · have ht' : pyFalsyStr token = false := by
      cases htb : pyFalsyStr token
      · rfl
      · exact absurd htb ht
    refine ⟨ht', ?_⟩
    simp only [main, ht', Bool.false_eq_true, if_false] at h
    cases hsd : to_utc_date args.start_date false with
    | error e1 => simp [hsd] at h
    | ok sdt =>
      cases hed : to_utc_date args.end_date true with
      | error e2 => simp [hsd, hed] at h
      | ok edt =>
        refine ⟨sdt, edt, rfl, rfl, ?_⟩
        simp only [hsd, hed] at h
        cases hfp : fetchPages sdt edt (base_url args.owner args.repo)
            (some initParams) rs [] 0 with
        | mk reqs ex =>
          rw [hfp] at h
          cases ex with
          | fatal c m => simp at h
          | uncaught => simp at h
          | starved => simp at h
          | done kept2 pages2 =>
            by_cases hdir : pyDirname args.out = []
            · simp [hdir] at h
            · simp only [hdir, if_neg hdir] at h
              have h2 : Outcome.completed kept2 pages2
                  = Outcome.completed kept n := h
              injection h2 with hk hn
              rw [hk, hn]

theorem main_requests_eq (token : Option PyStr) (args : Args)
    (rs : List Response) (ht : pyFalsyStr token = false)
    (sdt edt : Option Nat)
    (hsd : to_utc_date args.start_date false = .ok sdt)
    (hed : to_utc_date args.end_date true = .ok edt) :
    (main token args rs).requests
      = (fetchPages sdt edt (base_url args.owner args.repo) (some initParams)
          rs [] 0).1 := by
  simp only [main, ht, Bool.false_eq_true, if_false, hsd, hed]
  cases hfp : fetchPages sdt edt (base_url args.owner args.repo)
      (some initParams) rs [] 0 with
  | mk reqs ex =>
    cases ex with
    | fatal c m => rfl
    | uncaught => rfl
    | starved => rfl
    | done kept2 pages2 =>
      by_cases hdir : pyDirname args.out = []
      · simp [hdir]
      · simp [hdir]

theorem specOutputConcat_mem (s e : Option Nat) :
    ∀ used l, specOutputConcat s e used = .ok l → ∀ pr ∈ l, keptPR s e pr := by
  intro used
  induction used with
  | nil =>
    intro l h pr hpr
    simp only [specOutputConcat] at h
    injection h with h2
    subst h2
    simp at hpr
  | cons r rest ih =>
    intro l h pr hpr
    simp only [specOutputConcat] at h
    cases hf : filterMerged s e (r.body.getD []) with
    | error err => simp only [hf] at h; exact Except.noConfusion h
    | ok page =>
      simp only [hf] at h
      cases hrec : specOutputConcat s e rest with
      | error err => simp only [hrec] at h; exact Except.noConfusion h
      | ok tail =>
        simp only [hrec] at h
        injection h with h2
        subst h2
        rcases List.mem_append.mp hpr with hmem | hmem
        · exact filterMerged_mem s e _ page hf pr hmem
        · exact ih tail hrec pr hmem

/-! ### The claims -/

/-- C1: for every pair of optional date bounds and every sequence of
responses, every record in a completed run's output array has a non-null
(and non-empty) `merged_at` whose parsed instant lies within the bounds
`main` computes with `to_utc_date` — start at 00:00:00 of the start date,
end at the end-of-day instant of the end date, an omitted bound leaving
that side open (`keptPR`); and the end bound is the midnight instant plus
one day minus one time unit (microsecond). -/
theorem C1_output_within_bounds (token : Option PyStr) (args : Args)
    (rs : List Response) (kept : List PR) (n : Nat)
    (h : (main token args rs).outcome = .completed kept n) :
    (∃ sdt edt,
      to_utc_date args.start_date false = .ok sdt ∧
      to_utc_date args.end_date true = .ok edt ∧
      ∀ pr ∈ kept, keptPR sdt edt pr)
    ∧ (∀ d b, to_utc_date (some d) true = .ok (some b) →
        ∃ b0, to_utc_date (some d) false = .ok (some b0) ∧
          b = b0 + usPerDay - 1) := by
  constructor
  · obtain ⟨ht, sdt, edt, hsd, hed, hdone⟩ :=
      main_completed_inv token args rs kept n h
    refine ⟨sdt, edt, hsd, hed, ?_⟩
    obtain ⟨used, rest2, hsplit, l, hspec, hkept⟩ :=
      fetchPages_done_inv sdt edt rs _ _ [] 0 kept n hdone
    have hl : kept = l := by simpa using hkept
    subst hl
    exact specOutputConcat_mem sdt edt used kept hspec
  · intro d b hb
    by_cases hd : d = []
    · simp only [to_utc_date, if_pos hd] at hb
      exact Option.noConfusion (Except.ok.inj hb)
    · simp only [to_utc_date, if_neg hd] at hb ⊢
      cases hp : parseYmd d with
      | none => simp only [hp] at hb; exact Except.noConfusion hb
      | some t =>
        simp only [hp] at hb ⊢
        by_cases hv : validDatetime t = true
        · rw [if_pos hv] at hb ⊢
          simp only [if_true] at hb
          refine ⟨dtToMicros t, by simp, ?_⟩
          have h2 := Option.some.inj (Except.ok.inj hb)
          omega
        · rw [if_neg hv] at hb
          exact Except.noConfusion hb

/-- C1 witness: a February-only run against one page keeps exactly the PR
merged 2025-02-15, and the bound facts hold there. -/
theorem C1_output_within_bounds_witness :
    (∃ sdt edt,
      to_utc_date argsFeb.start_date false = .ok sdt ∧
      to_utc_date argsFeb.end_date true = .ok edt ∧
      ∀ pr ∈ [prFeb], keptPR sdt edt pr)
    ∧ (∀ d b, to_utc_date (some d) true = .ok (some b) →
        ∃ b0, to_utc_date (some d) false = .ok (some b0) ∧
          b = b0 + usPerDay - 1) :=
  C1_output_within_bounds (some tokenVal) argsFeb [respFeb] [prFeb] 1
    (by decide)

/-- C2: the pagination loop terminates on every finite response sequence
(it issues at most one request per available response, plus one), and — for
a 200 page whose records filter cleanly — it stops following links exactly
when `stopsHere` holds: the extracted next link is absent (or empty, which
Python's truthiness treats as absent) or the page's raw record list (the
records returned by the API, not the records surviving the filter) is
empty; otherwise it continues with the link URL. -/
theorem C2_pagination (s e : Option Nat) :
    (∀ (rs : List Response) url params acc pages,
      (fetchPages s e url params rs acc pages).1.length ≤ rs.length + 1)
    ∧ (∀ url params (resp : Response) rest acc pages page,
        resp.status = 200 →
        filterMerged s e (resp.body.getD []) = .ok page →
        ((stopsHere resp = true →
          fetchPages s e url params (resp :: rest) acc pages
            = ([⟨url, params⟩], .done (acc ++ page) (pages + 1)))
        ∧ (stopsHere resp = false →
          ∃ nxt, next_link resp.linkHeader = some nxt ∧
            fetchPages s e url params (resp :: rest) acc pages
              = (⟨url, params⟩ ::
                  (fetchPages s e nxt none rest (acc ++ page) (pages + 1)).1,
                 (fetchPages s e nxt none rest (acc ++ page)
                   (pages + 1)).2)))) := by
  refine ⟨fetchPages_len s e, ?_⟩
  intro url params resp rest acc pages page h200 hf
  constructor
  · intro hstop
    cases hnl : next_link resp.linkHeader with
    | none =>
      exact fetchPages_done_nolink s e url params resp rest acc pages h200
        page hf hnl
    | some nxt =>
      simp only [stopsHere, hnl, pyFalsyStr] at hstop
      have hor : nxt = [] ∨ (resp.body.getD []) = [] := by
        simpa using hstop
      exact fetchPages_done_stop s e url params resp rest acc pages h200
        page nxt hf hnl hor
  · intro hgo
    cases hnl : next_link resp.linkHeader with
    | none => simp [stopsHere, hnl, pyFalsyStr] at hgo
    | some nxt =>
      refine ⟨nxt, rfl, ?_⟩
      simp only [stopsHere, hnl, pyFalsyStr] at hgo
      have hne : ¬(nxt = [] ∨ (resp.body.getD []) = []) := by
        intro hor
        rcases hor with h3 | h3 <;> rw [h3] at hgo <;> simp at hgo
      exact fetchPages_continue s e url params resp rest acc pages h200
        page nxt hf hnl hne

/-- C2 witness: a final page stops the loop; a page whose only record is
filtered out but whose raw record list is non-empty and which carries a
next link makes the loop continue. -/
theorem C2_pagination_witness :
    ((fetchPages none none (base_url defaultArgs.owner defaultArgs.repo)
        (some initParams) [respLast] [] 0).1.length ≤ 1 + 1)
    ∧ (fetchPages none none (base_url defaultArgs.owner defaultArgs.repo)
        (some initParams) [respLast] [] 0
      = ([⟨base_url defaultArgs.owner defaultArgs.repo, some initParams⟩],
         .done ([] ++ []) (0 + 1)))
    ∧ (∃ nxt, next_link respPage1.linkHeader = some nxt ∧
        fetchPages none none (base_url defaultArgs.owner defaultArgs.repo)
            (some initParams) (respPage1 :: [respLast]) [] 0
          = (⟨base_url defaultArgs.owner defaultArgs.repo, some initParams⟩ ::
              (fetchPages none none nxt none [respLast] ([] ++ [])
                (0 + 1)).1,
             (fetchPages none none nxt none [respLast] ([] ++ [])
               (0 + 1)).2)) :=
  ⟨(C2_pagination none none).1 [respLast] _ _ _ _,
   ((C2_pagination none none).2 _ _ respLast [] [] 0 [] (by decide)
     (by decide)).1 (by decide),
   ((C2_pagination none none).2 _ _ respPage1 [respLast] [] 0 []
     (by decide) (by decide)).2 (by decide)⟩

theorem sessionGet_503_exhaust :
    ∀ (k : Nat) (rs : List Response), rs.length = k + 1 →
      (∀ r ∈ rs, r.status = 503) →
      ∃ r ∈ rs, sessionGet build_session_retries methodGET (k : Int) rs
        = .response r (k + 1) := by
  intro k
  induction k with
  | zero =>
    intro rs hlen hall
    cases rs with
    | nil => simp at hlen
    | cons r tail =>
      have htail : tail = [] := by
        simp only [List.length_cons] at hlen
        exact List.eq_nil_of_length_eq_zero (by omega)
      subst htail
      have hr : isRetryStatus build_session_retries methodGET r.status
          = true := by
        rw [hall r (List.mem_cons_self r [])]
        decide
      refine ⟨r, List.mem_cons_self r [], ?_⟩
      simp only [sessionGet, hr, if_true]
      norm_num [build_session_retries]
  | succ k ih =>
    intro rs hlen hall
    cases rs with
    | nil => simp at hlen
    | cons r tail =>
      have hlen2 : tail.length = k + 1 := by
        simp only [List.length_cons] at hlen
        omega
      obtain ⟨r2, hr2mem, hr2⟩ :=
        ih tail hlen2 (fun q hq => hall q (List.mem_cons_of_mem r hq))
      have hr : isRetryStatus build_session_retries methodGET r.status
          = true := by
        rw [hall r (List.mem_cons_self r tail)]
        decide
      refine ⟨r2, List.mem_cons_of_mem r hr2mem, ?_⟩
      simp only [sessionGet, hr, if_true]
      rw [if_neg (by push_cast; omega : ¬((((k : Nat) + 1 : Nat) : Int) - 1 < 0))]
      have hcast : (((k : Nat) + 1 : Nat) : Int) - 1 = ((k : Nat) : Int) := by
        push_cast
        omega
      rw [hcast, hr2]

/-- C3 counterexample: the claim says retries happen "up to 5 attempts in
total" and that five consecutive 503s make the process exit non-zero after
exhausting retries.  In the code `Retry(total=5)` means five retries after
the initial attempt: on five consecutive 503s the budget is not yet
exhausted, a sixth request is issued, and if it returns 200 the final
response is the 200, so the run completes normally instead of exiting
non-zero (and six attempts were made, not five). -/
theorem C3_counterexample :
    sessionGet build_session_retries methodGET 5
        [resp503, resp503, resp503, resp503, resp503, respLast]
      = .response respLast 6
    ∧ respLast.status = 200
    ∧ (main (some tokenVal) defaultArgs [respLast]).outcome
        = .completed [] 1 :=
  ⟨by decide, rfl, by decide⟩

/-- C3 (amended): `build_session` configures retries exactly as
`total=5, backoff_factor=0.5, status_forcelist=[429,500,502,503,504],
allowed_methods=["GET"], raise_on_status=False`; a response whose status is
outside the forcelist (or a non-GET method) is returned immediately with a
single attempt; six consecutive 503s exhaust the budget (one initial
attempt plus five retries) and the sixth 503 is returned to the caller,
whereupon `main` exits with status 1 (non-zero). -/
theorem C3_retry_policy :
    build_session_retries
      = ⟨5, 1/2, [429, 500, 502, 503, 504], ["GET".toList], false⟩
    ∧ (∀ method (total : Int) (r : Response) rest,
        isRetryStatus build_session_retries method r.status = false →
        sessionGet build_session_retries method total (r :: rest)
          = .response r 1)
    ∧ (∀ rs : List Response, rs.length = 6 → (∀ r ∈ rs, r.status = 503) →
        ∃ r ∈ rs, sessionGet build_session_retries methodGET 5 rs
          = .response r 6 ∧ r.status = 503)
    ∧ (∀ token args (resp : Response), pyFalsyStr token = false →
        args.start_date = none → args.end_date = none → resp.status = 503 →
        (main token args [resp]).outcome = .exited 1 (apiErrorMsg resp)) := by
  refine ⟨rfl, ?_, ?_, ?_⟩
  · intro method total r rest hno
    simp only [sessionGet, hno, Bool.false_eq_true, if_false]
  · intro rs hlen hall
    obtain ⟨r, hmem, hr⟩ := sessionGet_503_exhaust 5 rs hlen hall
    exact ⟨r, hmem, hr, hall r hmem⟩
  · intro token args resp htok hsd hed hst
    have hne : resp.status ≠ 200 := by rw [hst]; decide
    simp only [main, htok, Bool.false_eq_true, if_false, hsd, hed,
      to_utc_date]
    rw [fetchPages_not200 none none (base_url args.owner args.repo)
      (some initParams) resp [] [] 0 hne]

/-- C3 witness: a non-retryable 200 is returned on the first attempt; six
503s are exhausted with the sixth returned; a post-retry 503 makes the
default-argument run exit 1. -/
theorem C3_retry_policy_witness :
    sessionGet build_session_retries methodGET 5 [respLast]
      = .response respLast 1
    ∧ (∃ r ∈ [resp503, resp503, resp503, resp503, resp503, resp503],
        sessionGet build_session_retries methodGET 5
            [resp503, resp503, resp503, resp503, resp503, resp503]
          = .response r 6 ∧ r.status = 503)
    ∧ (main (some tokenVal) defaultArgs [resp503]).outcome
        = .exited 1 (apiErrorMsg resp503) :=
  ⟨C3_retry_policy.2.1 methodGET 5 respLast [] (by decide),
   C3_retry_policy.2.2.1 [resp503, resp503, resp503, resp503, resp503,
     resp503] (by decide) (by decide),
   C3_retry_policy.2.2.2 (some tokenVal) defaultArgs resp503 (by decide)
     rfl rfl rfl⟩

/-- C4 counterexample: the claim says that for every 2xx response the
process does not exit at the status check, but the code tests
`resp.status_code != 200`: a 201 response — a 2xx status outside the
retryable set — makes the run exit with status 1. -/
theorem C4_counterexample :
    (200 ≤ resp201.status ∧ resp201.status < 300)
    ∧ (main (some tokenVal) defaultArgs [resp201]).outcome
        = .exited 1 (apiErrorMsg resp201) :=
  ⟨by decide, by decide⟩

/-- C4 (amended): for every response delivered to the loop whose status
code is not 200 (rather than: not 2xx), the run exits with status 1 and a
message consisting of a fixed prefix, the decimal status code, `": "` and
the response body truncated to at most 300 characters; and every fatal exit
of the loop carries code 1 and the message of some non-200 response, so a
200 response never triggers this exit. -/
theorem C4_fatal_http (s e : Option Nat) :
    (∀ url params (resp : Response) rest acc pages, resp.status ≠ 200 →
      fetchPages s e url params (resp :: rest) acc pages
        = ([⟨url, params⟩], .fatal 1 (apiErrorMsg resp)))
    ∧ (∀ resp : Response, ∃ u v, apiErrorMsg resp
        = u ++ natStr resp.status ++ v ++ resp.text.take 300
        ∧ v = ": ".toList)
    ∧ (∀ rs url params acc pages c m,
        (fetchPages s e url params rs acc pages).2 = .fatal c m →
        c = 1 ∧ ∃ r ∈ rs, r.status ≠ 200 ∧ m = apiErrorMsg r) :=
  ⟨fun url params resp rest acc pages h =>
      fetchPages_not200 s e url params resp rest acc pages h,
   fun _ => ⟨"❌ GitHub API error ".toList, ": ".toList, rfl, rfl⟩,
   fun rs url params acc pages c m h =>
      fetchPages_fatal_inv s e rs url params acc pages c m h⟩

/-- C4 witness: a 503 response is fatal with the computed message, whose
shape exhibits the status code and truncated body. -/
theorem C4_fatal_http_witness :
    fetchPages none none (base_url defaultArgs.owner defaultArgs.repo)
        (some initParams) [resp503] [] 0
      = ([⟨base_url defaultArgs.owner defaultArgs.repo, some initParams⟩],
         .fatal 1 (apiErrorMsg resp503))
    ∧ (∃ u v, apiErrorMsg resp503
        = u ++ natStr resp503.status ++ v ++ resp503.text.take 300
        ∧ v = ": ".toList)
    ∧ (1 = 1 ∧ ∃ r ∈ [resp503], r.status ≠ 200
        ∧ apiErrorMsg resp503 = apiErrorMsg r) :=
  ⟨(C4_fatal_http none none).1 _ _ resp503 [] [] 0 (by decide),
   (C4_fatal_http none none).2.1 resp503,
   (C4_fatal_http none none).2.2 [resp503]
     (base_url defaultArgs.owner defaultArgs.repo) (some initParams) [] 0
     1 (apiErrorMsg resp503) (by decide)⟩

/-- C5: with the token variable unset or empty, `main` exits with status 2
and the missing-token message before issuing any request or touching the
filesystem; with a non-empty token present, the pre-flight check never
produces an exit with status 2. -/
theorem C5_token_check (args : Args) (rs : List Response) :
    main none args rs = ⟨[], [], .exited 2 tokenErrorMsg⟩
    ∧ main (some []) args rs = ⟨[], [], .exited 2 tokenErrorMsg⟩
    ∧ (∀ t : PyStr, t ≠ [] → ∀ m,
        (main (some t) args rs).outcome ≠ .exited 2 m) := by
  refine ⟨rfl, rfl, ?_⟩
  intro t ht m hcon
  have hf : pyFalsyStr (some t) = false := by
    cases t with
    | nil => exact absurd rfl ht
    | cons c cs => rfl
  simp only [main, hf, Bool.false_eq_true, if_false] at hcon
  cases hsd : to_utc_date args.start_date false with
  | error e1 => simp [hsd] at hcon
  | ok sdt =>
    cases hed : to_utc_date args.end_date true with
    | error e2 => simp [hsd, hed] at hcon
    | ok edt =>
      simp only [hsd, hed] at hcon
      cases hfp : fetchPages sdt edt (base_url args.owner args.repo)
          (some initParams) rs [] 0 with
      | mk reqs ex =>
        rw [hfp] at hcon
        cases ex with
        | fatal c m2 =>
          have h2 : Outcome.exited c m2 = Outcome.exited 2 m := hcon
          injection h2 with hc hm
          have h1 := (fetchPages_fatal_inv sdt edt rs
            (base_url args.owner args.repo) (some initParams) [] 0 c m2
            (by rw [hfp])).1
          omega
        | uncaught => simp at hcon
        | starved => simp at hcon
        | done kept pages =>
          by_cases hdir : pyDirname args.out = []
          · simp [hdir] at hcon
          · simp [hdir] at hcon

/-- C5 witness: concrete runs for the unset-token exit and for the
presence of a non-empty token. -/
theorem C5_token_check_witness :
    main none defaultArgs [] = ⟨[], [], .exited 2 tokenErrorMsg⟩
    ∧ (main (some tokenVal) defaultArgs []).outcome
        ≠ .exited 2 tokenErrorMsg :=
  ⟨(C5_token_check defaultArgs []).1,
   (C5_token_check defaultArgs []).2.2 tokenVal (by decide) tokenErrorMsg⟩

/-- C6 counterexample: on the header `rel="next"` — a segment containing
`rel="next"` but no angle brackets — `next_link` returns the fragment
`rel="next` (both `find` calls return `-1`, so the slice is `p[0:-1]`),
whereas the claim's "substring enclosed between `<` and `>`" description
(`claimNextLink`) yields `None`; so `next_link` does not equal the claimed
extractor on every header. -/
theorem C6_counterexample :
    next_link (some "rel=\"next\"".toList) = some "rel=\"next".toList
    ∧ claimNextLink (some "rel=\"next\"".toList) = none :=
  ⟨by decide, by decide⟩

/-- C6 (amended): `next_link` splits the header on commas, strips each
segment, and for the first segment containing `rel="next"` returns the
Python slice `p[p.find("<") + 1 : p.find(">")]` (`extractNext`) — which,
whenever the segment's first `<` precedes its first `>`, is exactly the
substring enclosed between them (`claimEnclosed`); it returns `None`
exactly when the header is absent or empty or no segment contains
`rel="next"`.  On malformed segments (a missing bracket, or `>` before
`<`) the find-based slice is returned instead of `None`. -/
theorem C6_next_link (h : Option PyStr) :
    (next_link h = none ↔ (h = none ∨ h = some [] ∨
      ∀ p ∈ ((h.getD []).splitOn ',').map pyStrip,
        containsSub relNext p = false))
    ∧ (∀ link p, h = some link → link ≠ [] →
        ((link.splitOn ',').map pyStrip).find? (containsSub relNext)
            = some p →
        next_link h = some (extractNext p))
    ∧ (∀ p i j, findCharIdx '<' p = some i → findCharIdx '>' p = some j →
        i < j →
        extractNext p = (p.drop (i + 1)).take (j - (i + 1))
        ∧ claimEnclosed p = some ((p.drop (i + 1)).take (j - (i + 1)))) := by
  refine ⟨?_, ?_, ?_⟩
  · cases h with
    | none => simp [next_link]
    | some link =>
      by_cases hl : link = []
      · subst hl
        simp [next_link]
      · simp only [next_link, Option.getD_some]
        rw [if_neg hl, findNextPart_eq_none]
        constructor
        · intro hall
          exact Or.inr (Or.inr hall)
        · intro hor
          rcases hor with h1 | h1 | h1
          · exact Option.noConfusion h1
          · exact absurd (Option.some.inj h1) hl
          · exact h1
  · intro link p hh hl hfind
    subst hh
    simp only [next_link, Option.getD_some]
    rw [if_neg hl]
    exact findNextPart_eq_some _ p hfind
  · intro p i j h1 h2 hij
    have hi := findCharIdx_lt_length '<' p i h1
    have hj := findCharIdx_lt_length '>' p j h2
    constructor
    · simp only [extractNext, pyFindChar, h1, h2]
      exact pySlice_of_indices p i j (by omega) (by omega)
    · simp only [claimEnclosed, h1]
      rw [findCharIdx_drop '>' (i + 1) p j h2 (by omega)]

/-- C6 witness: on a well-formed header the extractor returns the URL
between the brackets of the `rel="next"` segment, agreeing with the
enclosed-substring description. -/
theorem C6_next_link_witness :
    next_link (some linkHdr2) = some (extractNext linkHdr2)
    ∧ extractNext linkHdr2 = (linkHdr2.drop (0 + 1)).take (46 - (0 + 1))
    ∧ claimEnclosed linkHdr2
        = some ((linkHdr2.drop (0 + 1)).take (46 - (0 + 1))) :=
  ⟨(C6_next_link (some linkHdr2)).2.1 linkHdr2 linkHdr2 rfl (by decide)
     (by decide),
   ((C6_next_link (some linkHdr2)).2.2 linkHdr2 0 46 (by decide) (by decide)
     (by decide)).1,
   ((C6_next_link (some linkHdr2)).2.2 linkHdr2 0 46 (by decide) (by decide)
     (by decide)).2⟩

/-- C7: a completed run performs exactly two filesystem effects, in order:
creating the output's parent directory, then a single write of the kept
records to the output path, after the loop has finished; every other
outcome (error exit, uncaught exception, out-of-responses) performs no
filesystem effect at all, so an errored run never creates or modifies the
output path. -/
theorem C7_single_write (token : Option PyStr) (args : Args)
    (rs : List Response) :
    (∀ kept n, (main token args rs).outcome = .completed kept n →
      (main token args rs).effects
        = [.makedirs (pyDirname args.out), .writeJson args.out kept])
    ∧ (∀ c m, (main token args rs).outcome = .exited c m →
        (main token args rs).effects = [])
    ∧ ((main token args rs).outcome = .uncaughtError →
        (main token args rs).effects = [])
    ∧ ((main token args rs).outcome = .outOfResponses →
        (main token args rs).effects = []) := by
  by_cases ht : pyFalsyStr token = true
  · simp [main, ht]
  · have ht' : pyFalsyStr token = false := by
      cases htb : pyFalsyStr token
      · rfl
      · exact absurd htb ht
    simp only [main, ht', Bool.false_eq_true, if_false]
    split
    · simp
    · split
      · simp
      · split
        · simp
        · simp
        · simp
        · split
          · simp
          · refine ⟨?_, by simp, by simp, by simp⟩
            intro kept n hout
            simp at hout
            simp [hout.1]

/-- C7 witness: the completed February run creates the directory and
writes once; the missing-token run performs no effect. -/
theorem C7_single_write_witness :
    (main (some tokenVal) argsFeb [respFeb]).effects
      = [.makedirs (pyDirname argsFeb.out), .writeJson argsFeb.out [prFeb]]
    ∧ (main none defaultArgs []).effects = [] :=
  ⟨(C7_single_write (some tokenVal) argsFeb [respFeb]).1 [prFeb] 1
     (by decide),
   (C7_single_write none defaultArgs []).2.1 2 tokenErrorMsg (by decide)⟩

/-- C8: in every run that passes the token and date checks, the first
request uses the base pulls URL with the original query parameters
(`state=closed, per_page=100, page=1, sort=updated, direction=desc`), and
every subsequent request carries `params = None` and uses verbatim the URL
extracted from the previous response's Link header. -/
theorem C8_request_params (token : Option PyStr) (args : Args)
    (rs : List Response) (sdt edt : Option Nat)
    (ht : pyFalsyStr token = false)
    (hsd : to_utc_date args.start_date false = .ok sdt)
    (hed : to_utc_date args.end_date true = .ok edt) :
    (main token args rs).requests.head?
      = some ⟨base_url args.owner args.repo, some initParams⟩
    ∧ (∀ i req, (main token args rs).requests.get? (i + 1) = some req →
        req.params = none ∧ ∃ resp, rs.get? i = some resp ∧
          next_link resp.linkHeader = some req.url) := by
  have hreq := main_requests_eq token args rs ht sdt edt hsd hed
  constructor
  · rw [hreq, fetchPages_first]
    rfl
  · intro i req hget
    rw [hreq] at hget
    exact fetchPages_params_none sdt edt rs _ _ [] 0 i req hget

/-- C8 witness: a two-page run issues the base request with the original
parameters and then the extracted page-2 URL with no parameters. -/
theorem C8_request_params_witness :
    (main (some tokenVal) defaultArgs [respPage1, respLast]).requests.head?
      = some ⟨base_url defaultArgs.owner defaultArgs.repo, some initParams⟩
    ∧ ((⟨urlPage2, none⟩ : Request).params = none ∧ ∃ resp,
        [respPage1, respLast].get? 0 = some resp ∧
          next_link resp.linkHeader
            = some (⟨urlPage2, none⟩ : Request).url) :=
  ⟨(C8_request_params (some tokenVal) defaultArgs [respPage1, respLast]
      none none (by decide) rfl rfl).1,
   (C8_request_params (some tokenVal) defaultArgs [respPage1, respLast]
      none none (by decide) rfl rfl).2 0 ⟨urlPage2, none⟩ (by decide)⟩

/-- C9: the output array of a completed run equals the in-order
concatenation, over the pages consumed (a prefix of the response sequence),
of each page's records surviving the merged/date filter
(`specOutputConcat`), and it is a sublist of the concatenation of the raw
records in the order received — records are kept unchanged and API order is
preserved. -/
theorem C9_order_preserved (token : Option PyStr) (args : Args)
    (rs : List Response) (kept : List PR) (n : Nat)
    (h : (main token args rs).outcome = .completed kept n) :
    ∃ sdt edt used rest2,
      to_utc_date args.start_date false = .ok sdt ∧
      to_utc_date args.end_date true = .ok edt ∧
      rs = used ++ rest2 ∧
      specOutputConcat sdt edt used = .ok kept ∧
      kept.Sublist (used.flatMap fun r => (r.body.getD [])) := by
  obtain ⟨ht, sdt, edt, hsd, hed, hdone⟩ :=
    main_completed_inv token args rs kept n h
  obtain ⟨used, rest2, hsplit, l, hspec, hkept⟩ :=
    fetchPages_done_inv sdt edt rs _ _ [] 0 kept n hdone
  have hl : kept = l := by simpa using hkept
  subst hl
  exact ⟨sdt, edt, used, rest2, hsd, hed, hsplit, hspec,
    specOutputConcat_sublist sdt edt used kept hspec⟩

/-- C9 witness: the February run consumes one page and outputs exactly the
filtered concatenation of that page. -/
theorem C9_order_preserved_witness :
    ∃ sdt edt used rest2,
      to_utc_date argsFeb.start_date false = .ok sdt ∧
      to_utc_date argsFeb.end_date true = .ok edt ∧
      [respFeb] = used ++ rest2 ∧
      specOutputConcat sdt edt used = .ok [prFeb] ∧
      List.Sublist [prFeb] (used.flatMap fun r => (r.body.getD [])) :=
  C9_order_preserved (some tokenVal) argsFeb [respFeb] [prFeb] 1 (by decide)

/-- C10: the timestamp parser accepts exactly the `%Y-%m-%dT%H:%M:%SZ`
shape (a well-formed GitHub timestamp parses to its instant), and a
`merged_at` deviating from it — fractional seconds or a numeric UTC
offset — makes `iso_to_dt_utc` raise; the loop does not catch it, so the
run ends as an uncaught error (neither a filtered record, nor a reported
exit, nor any output written). -/
theorem C10_strict_timestamp_format :
    iso_to_dt_utc "2025-11-06T09:05:11Z".toList
      = .ok (dtToMicros ⟨2025, 11, 6, 9, 5, 11⟩)
    ∧ iso_to_dt_utc "2025-11-06T09:05:11.123Z".toList = .error ()
    ∧ iso_to_dt_utc "2025-11-06T09:05:11+0000".toList = .error ()
    ∧ (main (some tokenVal) defaultArgs [respBadTs]).outcome
        = .uncaughtError
    ∧ (main (some tokenVal) defaultArgs [respBadTs]).effects = [] :=
  ⟨by decide, by decide, by decide, by decide, by decide⟩

end Extract
